import Mathlib

/-!
Shallow embedding of the poof-mcp terminal automation core (TypeScript) in
Lean 4, together with theorems checking the natural-language specification
against the code.

Strings of the TypeScript source are modelled as lists of characters
(List Char); JavaScript string operations used by the code (toLowerCase,
includes, split, trim, length, regular-expression searches) are embedded as
executable functions on List Char.  External effects (the zmx session
registry, AppleScript delivery, the sampled terminal screen) are modelled by
explicit state passing or by an oracle function from sample index to screen
content.  Time in the polling loops is modelled discretely: every operation
is instantaneous except the 100 ms busy-wait between polls, so the k-th poll
iteration happens k * 100 ms after the call began, exactly as the source's
fixed pollInterval prescribes.
-/

/-! ## JavaScript string primitives -/

/-- JavaScript toLowerCase on one character, for the basic latin range the
key encoder works with: this is exactly core Char.toLower. -/
def jsCharToLower (c : Char) : Char := c.toLower

/-- JavaScript String.prototype.toLowerCase, on the char-list model. -/
def jsToLower (s : List Char) : List Char := s.map jsCharToLower

/-- JavaScript String.prototype.split with a one-character separator:
"a+b".split("+") = ["a","b"], "+".split("+") = ["", ""], "".split("+") = [""]. -/
def jsSplit (sep : Char) : List Char → List (List Char)
  | [] => [[]]
  | c :: rest =>
    match jsSplit sep rest with
    | [] => [[]]
    | h :: t => if c = sep then [] :: h :: t else (c :: h) :: t

/-- JavaScript String.prototype.includes for a substring needle:
true when needle occurs contiguously inside hay. -/
def listIncludes : List Char → List Char → Bool
  | hay, needle =>
    if needle.isPrefixOf hay then true
    else
      match hay with
      | [] => false
      | _ :: rest => listIncludes rest needle

/-- The whitespace characters JavaScript trim and the regex class backslash-s
strip, restricted to the ASCII ones the terminal output can contain. -/
def jsIsWS (c : Char) : Bool :=
  c = ' ' || c = '\t' || c = '\n' || c = '\r' || c = '\x0b' || c = '\x0c'

/-- JavaScript String.prototype.trim: drop whitespace from both ends. -/
def jsTrim (s : List Char) : List Char :=
  ((s.dropWhile jsIsWS).reverse.dropWhile jsIsWS).reverse

/-! ## Key Encoder (applescript.ts: KEY_CODES table and sendKeystroke) -/

/-- The KEY_CODES record of applescript.ts: named key to macOS key code. -/
def KEY_CODES (k : List Char) : Option Nat :=
  if k = ['e','n','t','e','r'] then some 36
  else if k = ['r','e','t','u','r','n'] then some 36
  else if k = ['t','a','b'] then some 48
  else if k = ['e','s','c','a','p','e'] then some 53
  else if k = ['e','s','c'] then some 53
  else if k = ['s','p','a','c','e'] then some 49
  else if k = ['d','e','l','e','t','e'] then some 51
  else if k = ['b','a','c','k','s','p','a','c','e'] then some 51
  else if k = ['u','p'] then some 126
  else if k = ['d','o','w','n'] then some 125
  else if k = ['l','e','f','t'] then some 123
  else if k = ['r','i','g','h','t'] then some 124
  else if k = ['h','o','m','e'] then some 115
  else if k = ['e','n','d'] then some 119
  else if k = ['p','a','g','e','u','p'] then some 116
  else if k = ['p','a','g','e','d','o','w','n'] then some 121
  else if k = ['f','1'] then some 122
  else if k = ['f','2'] then some 120
  else if k = ['f','3'] then some 99
  else if k = ['f','4'] then some 118
  else if k = ['f','5'] then some 96
  else if k = ['f','6'] then some 97
  else if k = ['f','7'] then some 98
  else if k = ['f','8'] then some 100
  else if k = ['f','9'] then some 101
  else if k = ['f','1','0'] then some 109
  else if k = ['f','1','1'] then some 103
  else if k = ['f','1','2'] then some 111
  else none

/-- The modifier switch of sendKeystroke: lowercased modifier name to the
AppleScript "using ... down" clause appended to the generated script. -/
def modifierClauseOf (m : List Char) : Option (List Char) :=
  if m = ['c','t','r','l'] ∨ m = ['c','o','n','t','r','o','l'] then
    some ("using control down".toList)
  else if m = ['a','l','t'] ∨ m = ['o','p','t','i','o','n'] then
    some ("using option down".toList)
  else if m = ['s','h','i','f','t'] then
    some ("using shift down".toList)
  else if m = ['c','m','d'] ∨ m = ['c','o','m','m','a','n','d'] then
    some ("using command down".toList)
  else none

/-- The failure conditions sendKeystroke can throw. -/
inductive KeyError where
  | unknownModifier (m : List Char)
  | unknownKey (k : List Char)
deriving DecidableEq

/-- The four AppleScript effects sendKeystroke can emit: a key code with a
modifier clause, a one-character keystroke with a modifier clause, a bare
key code, or literal text injection via typeText. -/
inductive KeyAction where
  | keyCodeMod (code : Nat) (clause : List Char)
  | keystrokeMod (k : List Char) (clause : List Char)
  | keyCode (code : Nat)
  | typeText (t : List Char)
deriving DecidableEq

/-- The resolution logic of sendKeystroke (applescript.ts): which AppleScript
effect a key name produces, or which error it throws.  Mirrors the source
line by line: lowerKey is computed from the whole key; a key containing "+"
goes through the modifier branch using parts[0] lowercased and parts[1]
as written; otherwise the named-key table is consulted with lowerKey, then a
single character is injected as literal text, and anything else throws. -/
def sendKeystroke (key : List Char) : Except KeyError KeyAction :=
  let lowerKey := jsToLower key
  if '+' ∈ key then
    let parts := jsSplit '+' key
    let modifier := jsToLower (parts.headD [])
    let mainKey := parts.getD 1 []
    match modifierClauseOf modifier with
    | none => .error (.unknownModifier modifier)
    | some clause =>
      match KEY_CODES (jsToLower mainKey) with
      | some code => .ok (.keyCodeMod code clause)
      | none =>
        if mainKey.length = 1 then .ok (.keystrokeMod mainKey clause)
        else .error (.unknownKey mainKey)
  else
    match KEY_CODES lowerKey with
    | some code => .ok (.keyCode code)
    | none =>
      if key.length = 1 then .ok (.typeText key)
      else .error (.unknownKey key)

/-! ## Text injection escaping (applescript.ts: typeText) -/

/-- First replace of typeText: double every backslash
(text.replace of every backslash with two backslashes). -/
def escapeBackslashes : List Char → List Char
  | [] => []
  | c :: rest =>
    if c = '\\' then '\\' :: '\\' :: escapeBackslashes rest
    else c :: escapeBackslashes rest

/-- Second replace of typeText: put a backslash before every double quote. -/
def escapeQuotes : List Char → List Char
  | [] => []
  | c :: rest =>
    if c = '\"' then '\\' :: '\"' :: escapeQuotes rest
    else c :: escapeQuotes rest

/-- The escaping typeText applies before embedding the text in the
AppleScript keystroke command: backslashes doubled first, then quotes
escaped. -/
def typeTextEscape (s : List Char) : List Char :=
  escapeQuotes (escapeBackslashes s)

/-- Modelled from the spec: the scripting layer's string-literal decoding,
which is not part of this repository (it happens inside osascript).  Per the
spec's design note, the templated script is a serialization format whose
escaping rules are quote and backslash doubling: a backslash escapes the
character after it, every other character stands for itself. -/
def appleScriptDecode : List Char → List Char
  | [] => []
  | c :: rest =>
    if c = '\\' then
      match rest with
      | [] => []
      | d :: rest2 => d :: appleScriptDecode rest2
    else c :: appleScriptDecode rest

/-! ## Polling loops (manager.ts: waitForText and waitForStable)

Time is discrete: the k-th loop iteration happens at k * 100 ms (the source's
pollInterval), every call between busy-waits being instantaneous.  The screen
is an oracle from sample index to content: sample k is what getScreenText
returns the (k+1)-th time it is called.  The loops are written with explicit
fuel; with fuel = timeoutMs the fuel can only run out at an iteration where
the while condition is false anyway (the loop runs while 100 * j < timeoutMs,
and j never exceeds timeoutMs in timeoutMs steps), and the fuel-exhausted
branch returns exactly what the false while condition returns, so the fuel
never changes the result. -/

/-- The while loop of waitForText: at iteration j (time 100 * j) check the
deadline, sample the screen, return found with the elapsed time on a
substring hit, otherwise busy-wait one poll interval. -/
def waitForTextLoop (screen : Nat → List Char) (text : List Char)
    (timeoutMs : Nat) : Nat → Nat → Bool × Nat
  | j, 0 => (false, 100 * j)
  | j, fuel + 1 =>
    if 100 * j < timeoutMs then
      if listIncludes (screen j) text then (true, 100 * j)
      else waitForTextLoop screen text timeoutMs (j + 1) fuel
    else (false, 100 * j)

/-- TerminalManager.waitForText: poll getScreenText every 100 ms until the
sample contains the text or timeoutMs elapses; the result carries the found
flag and the elapsed milliseconds. -/
def waitForText (screen : Nat → List Char) (text : List Char)
    (timeoutMs : Nat) : Bool × Nat :=
  waitForTextLoop screen text timeoutMs 0 timeoutMs

/-- The while loop of waitForStable: at iteration j (time 100 * j) check the
deadline, sample the screen, move the last-change timestamp to now when the
sample differs from the previous one, and declare stability once
now - lastChange reaches stableMs. -/
def waitForStableLoop (screen : Nat → List Char) (timeoutMs stableMs : Nat) :
    Nat → List Char → Nat → Nat → Bool × Nat
  | j, _, _, 0 => (false, 100 * j)
  | j, lastContent, lastChange, fuel + 1 =>
    if 100 * j < timeoutMs then
      let content := screen (j + 1)
      let lastContent2 := if content = lastContent then lastContent else content
      let lastChange2 := if content = lastContent then lastChange else 100 * j
      if stableMs ≤ 100 * j - lastChange2 then (true, 100 * j)
      else waitForStableLoop screen timeoutMs stableMs (j + 1) lastContent2 lastChange2 fuel
    else (false, 100 * j)

/-- TerminalManager.waitForStable: sample once to establish the baseline and
set lastChangeTime to the call start, then poll every 100 ms; stable once the
content has not changed for stableMs, failure once timeoutMs elapses. -/
def waitForStable (screen : Nat → List Char) (timeoutMs stableMs : Nat) :
    Bool × Nat :=
  waitForStableLoop screen timeoutMs stableMs 0 (screen 0) 0 timeoutMs

/-! ## Session Registry Adapter (zmx.ts) -/

/-- The parsed session record of types.ts: name always present, pid and
clients only when the registry's report line carries them. -/
structure ZmxSession where
  name : List Char
  pid : Option Nat
  clients : Option Nat
deriving DecidableEq

/-- The leftmost regex-style search the line parser performs: find the first
position where the literal key is followed by at least one character allowed
in the capture class, and return that maximal capture.  This is exactly how
the JavaScript regexes of the form key followed by a one-or-more character
class behave: a position where the key occurs but the class cannot consume a
character is not a match, and the engine moves on. -/
def matchKeyAt (key : List Char) (allowed : Char → Bool) :
    List Char → Option (List Char)
  | [] => none
  | c :: rest =>
    if key.isPrefixOf (c :: rest) then
      let cap := ((c :: rest).drop key.length).takeWhile allowed
      if cap.isEmpty then matchKeyAt key allowed rest
      else some cap
    else matchKeyAt key allowed rest

/-- parseInt base 10 on a capture the digit class produced. -/
def digitsToNat (s : List Char) : Nat :=
  s.foldl (fun n c => 10 * n + (c.toNat - 48)) 0

/-- The per-line parser of listSessions (zmx.ts): the session_name capture
(falling back to the trimmed line when absent), and the pid and clients
digit captures, absent when their key=value token is not on the line. -/
def parseSessionLine (line : List Char) : ZmxSession :=
  { name := (matchKeyAt ("session_name=".toList) (fun c => ! jsIsWS c) line).getD (jsTrim line)
    pid := (matchKeyAt ("pid=".toList) Char.isDigit line).map digitsToNat
    clients := (matchKeyAt ("clients=".toList) Char.isDigit line).map digitsToNat }

/-- The pure parsing core of listSessions (zmx.ts): trim the zmx list
report, return the empty list when it starts with "no sessions found",
otherwise split into lines, keep the non-empty ones and parse each. -/
def listSessionsParse (output : List Char) : List ZmxSession :=
  let trimmed := jsTrim output
  if ("no sessions found".toList).isPrefixOf trimmed then []
  else (((jsSplit '\n' trimmed).filter (fun l => l.length > 0)).map parseSessionLine)

/-- Modelled from the spec: the effect of the external command zmx kill on
the registry's session table (the registry itself is outside this
repository): the named session is removed. -/
def zmxKill (registry : List ZmxSession) (name : List Char) : List ZmxSession :=
  registry.filter (fun s => s.name ≠ name)

/-- killAllSessions of zmx.ts: snapshot the current listing, kill each
listed session by name, and return the length of the snapshot — the count
observed before any kill ran. -/
def zmxKillAllSessions (registry : List ZmxSession) : List ZmxSession × Nat :=
  let sessions := registry
  (sessions.foldl (fun acc s => zmxKill acc s.name) registry, sessions.length)

/-! ## Terminal Manager state (manager.ts) -/

/-- The two mutable fields of TerminalManager: currentSession and windowId,
each null until a session is created. -/
structure ManagerState where
  currentSession : Option (List Char)
  windowId : Option Nat
deriving DecidableEq

/-- SessionStatus of types.ts, as getStatus returns it. -/
structure SessionStatus where
  sessionName : Option (List Char)
  isActive : Bool
  windowId : Option Nat
  sessions : List ZmxSession
deriving DecidableEq

namespace TerminalManager

/-- TerminalManager.createSession: open a Terminal window attached to the
session (the external AppleScript call returns wid) and set both state
fields.  Returns the new state and the result record. -/
def createSession (st : ManagerState) (sessionName : List Char) (wid : Nat) :
    ManagerState × (List Char × Nat) :=
  let _ := st
  (⟨some sessionName, some wid⟩, (sessionName, wid))

/-- TerminalManager.killSession: delegate the kill to zmx, then clear both
state fields exactly when the killed name is the current session. -/
def killSession (st : ManagerState) (registry : List ZmxSession)
    (sessionName : List Char) : ManagerState × List ZmxSession :=
  let registry2 := zmxKill registry sessionName
  if st.currentSession = some sessionName then (⟨none, none⟩, registry2)
  else (st, registry2)

/-- TerminalManager.killAllSessions: delegate to zmx killAllSessions, clear
both state fields unconditionally, return the count. -/
def killAllSessions (st : ManagerState) (registry : List ZmxSession) :
    ManagerState × List ZmxSession × Nat :=
  let _ := st
  let r := zmxKillAllSessions registry
  (⟨none, none⟩, r.1, r.2)

/-- TerminalManager.getStatus: lazily re-resolve the window id when the
cached one is JavaScript-falsy (null, or the number 0), then report the
session name, the active flag (currentSession !== null), the window id and
a fresh registry listing.  Returns the status and the updated state. -/
def getStatus (st : ManagerState) (resolvedWindow : Option Nat)
    (registry : List ZmxSession) : SessionStatus × ManagerState :=
  let wid := if st.windowId = none ∨ st.windowId = some 0 then resolvedWindow
    else st.windowId
  (⟨st.currentSession, st.currentSession.isSome, wid, registry⟩,
    ⟨st.currentSession, wid⟩)

/-- The delivery loop of TerminalManager.sendKeys: resolve and deliver each
key in order; the trace holds the actions delivered before the first
encoding failure, and the second component the first error if any. -/
def sendKeysAux : List (List Char) → List KeyAction × Option KeyError
  | [] => ([], none)
  | k :: rest =>
    match sendKeystroke k with
    | .error e => ([], some e)
    | .ok a =>
      let r := sendKeysAux rest
      (a :: r.1, r.2)

/-- TerminalManager.sendKeys: deliver the keys in order; when a key fails to
encode the thrown error propagates (the keys before it stay delivered), and
only when every key encoded does the method return a count, which is
keys.length. -/
def sendKeys (keys : List (List Char)) :
    List KeyAction × Except KeyError Nat :=
  match sendKeysAux keys with
  | (tr, some e) => (tr, .error e)
  | (tr, none) => (tr, .ok keys.length)

end TerminalManager

/-! ## Helper lemmas about the JavaScript string model -/

theorem char_toNat_ofNat_valid (n : Nat) (h : n.isValidChar) :
    (Char.ofNat n).toNat = n := by
  unfold Char.ofNat
  rw [dif_pos h]
  unfold Char.ofNatAux Char.toNat
  simp [UInt32.toNat, BitVec.ofNatLt]

theorem jsCharToLower_idem (c : Char) :
    jsCharToLower (jsCharToLower c) = jsCharToLower c := by
  unfold jsCharToLower Char.toLower
  by_cases h : c.toNat ≥ 65 ∧ c.toNat ≤ 90
  · rw [if_pos h]
    have hv : (c.toNat + 32).isValidChar := by
      constructor; omega
    rw [char_toNat_ofNat_valid _ hv]
    rw [if_neg (by omega)]
  · rw [if_neg h, if_neg h]

theorem jsCharToLower_eq_low {d : Char} (hd : d.toNat < 65) (c : Char) :
    jsCharToLower c = d ↔ c = d := by
  unfold jsCharToLower Char.toLower
  by_cases h : c.toNat ≥ 65 ∧ c.toNat ≤ 90
  · rw [if_pos h]
    constructor
    · intro he
      have he2 : (Char.ofNat (c.toNat + 32)).toNat = d.toNat := by rw [he]
      rw [char_toNat_ofNat_valid _ (by constructor; omega)] at he2
      omega
    · intro he
      subst he
      omega
  · rw [if_neg h]

theorem jsToLower_idem (s : List Char) : jsToLower (jsToLower s) = jsToLower s := by
  unfold jsToLower
  rw [List.map_map]
  exact List.map_congr_left fun c _ => jsCharToLower_idem c

theorem jsToLower_length (s : List Char) : (jsToLower s).length = s.length :=
  List.length_map s jsCharToLower

theorem plus_mem_jsToLower (s : List Char) : '+' ∈ jsToLower s ↔ '+' ∈ s := by
  unfold jsToLower
  rw [List.mem_map]
  constructor
  · rintro ⟨c, hc, he⟩
    rw [jsCharToLower_eq_low (by decide) c] at he
    rwa [he] at hc
  · intro h
    exact ⟨'+', h, by decide⟩

theorem jsSplit_ne_nil (sep : Char) (s : List Char) : jsSplit sep s ≠ [] := by
  cases s with
  | nil => simp [jsSplit]
  | cons c rest =>
    simp only [jsSplit]
    cases h : jsSplit sep rest with
    | nil => simp
    | cons hd tl => by_cases hc : c = sep <;> simp [hc]

theorem jsSplit_plus_jsToLower (s : List Char) :
    jsSplit '+' (jsToLower s) = (jsSplit '+' s).map jsToLower := by
  induction s with
  | nil => simp [jsSplit, jsToLower]
  | cons c rest ih =>
    have hne := jsSplit_ne_nil '+' rest
    cases hs : jsSplit '+' rest with
    | nil => exact absurd hs hne
    | cons h t =>
      show jsSplit '+' (jsCharToLower c :: jsToLower rest) = _
      simp only [jsSplit, ih, hs, List.map_cons]
      by_cases hc : c = '+'
      · rw [if_pos (by rw [jsCharToLower_eq_low (by decide) c]; exact hc),
          if_pos hc]
        simp [jsToLower]
      · rw [if_neg (by rw [jsCharToLower_eq_low (by decide) c]; exact hc),
          if_neg hc]
        simp [jsToLower]

theorem headD_jsSplit_map (sep : Char) (s : List Char) :
    ((jsSplit sep s).map jsToLower).headD [] = jsToLower ((jsSplit sep s).headD []) := by
  have hne := jsSplit_ne_nil sep s
  cases hs : jsSplit sep s with
  | nil => exact absurd hs hne
  | cons a t => simp

theorem getD_one_map_jsToLower (l : List (List Char)) :
    (l.map jsToLower).getD 1 [] = jsToLower (l.getD 1 []) := by
  match l with
  | [] => simp [jsToLower]
  | [a] => simp [jsToLower, List.getD]
  | a :: b :: t => simp [List.getD]

theorem KEY_CODES_single_char (c : Char) : KEY_CODES [c] = none := by
  unfold KEY_CODES
  repeat rw [if_neg (by simp)]

/-- How sendKeystroke behaves on the lowercased key, in terms of the pieces
of the original key: identical when the result is a key code (plain or with
modifier), with lowercased payloads in the literal-character cases. -/
theorem sendKeystroke_jsToLower_eq (key : List Char) :
    sendKeystroke (jsToLower key) =
      if '+' ∈ key then
        match modifierClauseOf (jsToLower ((jsSplit '+' key).headD [])) with
        | none => .error (.unknownModifier (jsToLower ((jsSplit '+' key).headD [])))
        | some clause =>
          match KEY_CODES (jsToLower ((jsSplit '+' key).getD 1 [])) with
          | some code => .ok (.keyCodeMod code clause)
          | none =>
            if ((jsSplit '+' key).getD 1 []).length = 1 then
              .ok (.keystrokeMod (jsToLower ((jsSplit '+' key).getD 1 [])) clause)
            else .error (.unknownKey (jsToLower ((jsSplit '+' key).getD 1 [])))
      else
        match KEY_CODES (jsToLower key) with
        | some code => .ok (.keyCode code)
        | none =>
          if key.length = 1 then .ok (.typeText (jsToLower key))
          else .error (.unknownKey (jsToLower key)) := by
  simp only [sendKeystroke, plus_mem_jsToLower, jsSplit_plus_jsToLower,
    headD_jsSplit_map, getD_one_map_jsToLower, jsToLower_idem, jsToLower_length]

/-- C3 (amended): key encoding is total and deterministic — every input
string resolves to exactly one of the four AppleScript effects or fails with
an explicit error — and lowercasing the input does not change a key-code
result (plain or modified): the named-key table and the modifier names are
case-insensitive.  Literal character payloads, however, keep the input's
case (see the counterexample): lowercasing the input lowercases the payload
of a modified keystroke. -/
theorem sendKeystroke_total_and_keycode_case_insensitive (key : List Char) :
    ((∃ c cl, sendKeystroke key = .ok (.keyCodeMod c cl)) ∨
     (∃ ch cl, sendKeystroke key = .ok (.keystrokeMod ch cl)) ∨
     (∃ c, sendKeystroke key = .ok (.keyCode c)) ∨
     (∃ t, sendKeystroke key = .ok (.typeText t)) ∨
     (∃ e, sendKeystroke key = .error e)) ∧
    (∀ c, sendKeystroke key = .ok (.keyCode c) →
      sendKeystroke (jsToLower key) = .ok (.keyCode c)) ∧
    (∀ c cl, sendKeystroke key = .ok (.keyCodeMod c cl) →
      sendKeystroke (jsToLower key) = .ok (.keyCodeMod c cl)) ∧
    (∀ ch cl, sendKeystroke key = .ok (.keystrokeMod ch cl) →
      sendKeystroke (jsToLower key) = .ok (.keystrokeMod (jsToLower ch) cl)) := by
  refine ⟨?_, ?_, ?_, ?_⟩
  · rcases h : sendKeystroke key with e | a
    · exact Or.inr (Or.inr (Or.inr (Or.inr ⟨e, rfl⟩)))
    · rcases a with ⟨c, cl⟩ | ⟨ch, cl⟩ | c | t
      · exact Or.inl ⟨c, cl, rfl⟩
      · exact Or.inr (Or.inl ⟨ch, cl, rfl⟩)
      · exact Or.inr (Or.inr (Or.inl ⟨c, rfl⟩))
      · exact Or.inr (Or.inr (Or.inr (Or.inl ⟨t, rfl⟩)))
  · intro c h
    rw [sendKeystroke_jsToLower_eq]
    simp only [sendKeystroke] at h
    by_cases hp : '+' ∈ key
    · rw [if_pos hp] at h ⊢
      repeat' split at h
      all_goals first
        | exact h
        | simp_all
    · rw [if_neg hp] at h ⊢
      repeat' split at h
      all_goals first
        | exact h
        | simp_all
  · intro c cl h
    rw [sendKeystroke_jsToLower_eq]
    simp only [sendKeystroke] at h
    by_cases hp : '+' ∈ key
    · rw [if_pos hp] at h ⊢
      repeat' split at h
      all_goals first
        | exact h
        | simp_all
    · rw [if_neg hp] at h ⊢
      repeat' split at h
      all_goals first
        | exact h
        | simp_all
  · intro ch cl h
    rw [sendKeystroke_jsToLower_eq]
    simp only [sendKeystroke] at h
    by_cases hp : '+' ∈ key
    · rw [if_pos hp] at h ⊢
      repeat' split at h
      all_goals first
        | exact h
        | simp_all
    · rw [if_neg hp] at h ⊢
      repeat' split at h
      all_goals first
        | exact h
        | simp_all

/-- C3 counterexample: the claim's instance encode("CTRL+C") = encode("ctrl+c")
is false on the code — the modifier branch looks the key-code table up with
the lowercased key part, but a one-character key part is passed to the
keystroke command exactly as written, so "CTRL+C" presses C with control
down while "ctrl+c" presses c with control down. -/
theorem sendKeystroke_case_sensitivity_cex :
    sendKeystroke ("CTRL+C".toList) =
      .ok (.keystrokeMod ['C'] ("using control down".toList)) ∧
    sendKeystroke ("ctrl+c".toList) =
      .ok (.keystrokeMod ['c'] ("using control down".toList)) ∧
    KeyAction.keystrokeMod ['C'] ("using control down".toList) ≠
      KeyAction.keystrokeMod ['c'] ("using control down".toList) :=
  ⟨rfl, rfl, by decide⟩

/-- C4 (amended): every bare one-character key that is not "+" is injected
as literal text (the named-key table holds no one-character names); the
character "+" itself is the exception, because the code first checks
key.includes("+") and so routes "+" into the modifier-combination branch. -/
theorem sendKeystroke_single_char (c : Char) (hc : c ≠ '+') :
    sendKeystroke [c] = .ok (.typeText [c]) := by
  simp only [sendKeystroke]
  rw [if_neg (by simp [List.mem_singleton]; exact fun h => hc h.symm)]
  have hl : jsToLower [c] = [jsCharToLower c] := rfl
  rw [hl, KEY_CODES_single_char]
  simp

theorem sendKeystroke_single_char_witness :
    sendKeystroke ['a'] = .ok (.typeText ['a']) :=
  sendKeystroke_single_char 'a' (by decide)

/-- C4 counterexample: the claim includes the character "+", but
sendKeystroke("+") does not inject literal text — "+".includes("+") is true,
"+".split("+") is ["", ""], the empty modifier name falls into the switch
default, and an unknown-modifier error is thrown. -/
theorem sendKeystroke_plus_cex :
    sendKeystroke ['+'] = .error (.unknownModifier []) := rfl

/-- C9: the escaping typeText applies (double every backslash, then escape
every double quote) composed with the scripting layer's string-literal
decoding is the identity — injected text round-trips byte for byte, in
particular for the quote and backslash characters that are special to the
scripting layer. -/
theorem typeText_escaping_roundtrip (s : List Char) :
    appleScriptDecode (typeTextEscape s) = s := by
  unfold typeTextEscape
  induction s with
  | nil => rfl
  | cons c rest ih =>
    by_cases hb : c = '\\'
    · subst hb
      simp [escapeBackslashes, escapeQuotes, appleScriptDecode, ih]
    · by_cases hq : c = '\"'
      · subst hq
        simp [escapeBackslashes, escapeQuotes, appleScriptDecode, ih]
      · simp only [escapeBackslashes, escapeQuotes, if_neg hb, if_neg hq]
        rw [appleScriptDecode.eq_def]
        simp [hb, ih]

/-- The invariant of the waitForText while loop: relative to a start index j
whose earlier samples all missed, the loop reports not-found only at or past
the deadline with every in-budget sample missing, and reports found exactly
at the first hit, within the deadline. -/
theorem waitForTextLoop_spec (screen : Nat → List Char) (text : List Char)
    (T : Nat) :
    ∀ fuel j, T ≤ fuel + j →
      (∀ i, i < j → listIncludes (screen i) text = false) →
      ((waitForTextLoop screen text T j fuel).1 = false →
        T ≤ (waitForTextLoop screen text T j fuel).2 ∧
        ∀ k, 100 * k < T → listIncludes (screen k) text = false) ∧
      ((waitForTextLoop screen text T j fuel).1 = true →
        (waitForTextLoop screen text T j fuel).2 < T ∧
        (waitForTextLoop screen text T j fuel).2 % 100 = 0 ∧
        listIncludes (screen ((waitForTextLoop screen text T j fuel).2 / 100)) text = true ∧
        ∀ k, 100 * k < (waitForTextLoop screen text T j fuel).2 →
          listIncludes (screen k) text = false) := by
  intro fuel
  induction fuel with
  | zero =>
    intro j hT hpre
    constructor
    · intro _
      refine ⟨by simp only [waitForTextLoop]; omega, ?_⟩
      intro k hk
      exact hpre k (by omega)
    · intro hfound
      simp [waitForTextLoop] at hfound
  | succ fuel ih =>
    intro j hT hpre
    simp only [waitForTextLoop]
    by_cases hcond : 100 * j < T
    · rw [if_pos hcond]
      by_cases hinc : listIncludes (screen j) text = true
      · rw [if_pos hinc]
        constructor
        · intro hf
          simp at hf
        · intro _
          refine ⟨hcond, by omega, ?_, ?_⟩
          · rw [Nat.mul_div_cancel_left j (by norm_num : 0 < 100)]
            exact hinc
          · intro k hk
            exact hpre k (by omega)
      · rw [if_neg hinc]
        exact ih (j + 1) (by omega) (fun i hi => by
          rcases Nat.lt_succ_iff_lt_or_eq.mp hi with h | h
          · exact hpre i h
          · subst h
            exact Bool.eq_false_iff.mpr hinc)
    · rw [if_neg hcond]
      constructor
      · intro _
        refine ⟨by omega, ?_⟩
        intro k hk
        exact hpre k (by omega)
      · intro hf
        simp at hf

/-- C2: waitForText(text, timeoutMs) polls getScreenText every 100 ms and
returns found=true the instant a sample contains text as a plain substring,
reporting the elapsed time (a poll boundary, the first sample that hit, and
no earlier sample hit); it returns found=false only once at least timeoutMs
has elapsed and no in-budget sample contained the text — never earlier. -/
theorem waitForText_found_iff_sample_hit (screen : Nat → List Char)
    (text : List Char) (timeoutMs : Nat) :
    ((waitForText screen text timeoutMs).1 = false →
      timeoutMs ≤ (waitForText screen text timeoutMs).2 ∧
      ∀ k, 100 * k < timeoutMs → listIncludes (screen k) text = false) ∧
    ((waitForText screen text timeoutMs).1 = true →
      (waitForText screen text timeoutMs).2 < timeoutMs ∧
      (waitForText screen text timeoutMs).2 % 100 = 0 ∧
      listIncludes (screen ((waitForText screen text timeoutMs).2 / 100)) text = true ∧
      ∀ k, 100 * k < (waitForText screen text timeoutMs).2 →
        listIncludes (screen k) text = false) :=
  waitForTextLoop_spec screen text timeoutMs timeoutMs 0 (by omega)
    (fun i hi => absurd hi (Nat.not_lt_zero i))

/-- The waitForStable loop on a never-changing screen: with the baseline
sample as lastContent and the call start as lastChange, the loop returns
stable at exactly the first poll boundary at or after stableMs, provided
that boundary is inside the timeout budget. -/
theorem waitForStableLoop_const (screen : Nat → List Char) (T S : Nat)
    (hscreen : ∀ k, screen k = screen 0) (jstar : Nat)
    (hS1 : S ≤ 100 * jstar) (hS2 : ∀ j, j < jstar → 100 * j < S)
    (hT : 100 * jstar < T) :
    ∀ fuel j, T ≤ fuel + j → j ≤ jstar →
      waitForStableLoop screen T S j (screen 0) 0 fuel = (true, 100 * jstar) := by
  intro fuel
  induction fuel with
  | zero =>
    intro j hfuel hj
    omega
  | succ fuel ih =>
    intro j hfuel hj
    have hcond : 100 * j < T := by omega
    simp only [waitForStableLoop, if_pos hcond, hscreen (j + 1),
      eq_self_iff_true, if_true, Nat.sub_zero]
    by_cases hstab : S ≤ 100 * j
    · have hje : j = jstar := by
        rcases Nat.lt_or_ge j jstar with hlt | hge
        · have := hS2 j hlt
          omega
        · omega
      subst hje
      rw [if_pos hstab]
    · rw [if_neg hstab]
      exact ih (j + 1) (by omega) (by
        have hlt : 100 * j < S := by omega
        rcases Nat.lt_or_ge j jstar with h | h
        · omega
        · exfalso
          omega)

/-- C1 (amended): when every sample equals the first one (the screen never
changes), waitForStable(timeoutMs, stableMs) returns stable=true with
elapsed time at least stableMs and within one poll interval (100 ms) of it,
not timeoutMs — the initial sample establishes the last-change baseline at
call-start time.  The amendment: the claim's bound stableMs < timeoutMs is
not enough (see the counterexample); one poll interval of headroom,
stableMs + 100 ≤ timeoutMs, is. -/
theorem waitForStable_unchanging (screen : Nat → List Char)
    (timeoutMs stableMs : Nat) (hscreen : ∀ k, screen k = screen 0)
    (hbudget : stableMs + 100 ≤ timeoutMs) :
    (waitForStable screen timeoutMs stableMs).1 = true ∧
    stableMs ≤ (waitForStable screen timeoutMs stableMs).2 ∧
    (waitForStable screen timeoutMs stableMs).2 < stableMs + 100 := by
  have hS1 : stableMs ≤ 100 * ((stableMs + 99) / 100) := by omega
  have hS2 : ∀ j, j < (stableMs + 99) / 100 → 100 * j < stableMs := by
    intro j hj
    omega
  have hT : 100 * ((stableMs + 99) / 100) < timeoutMs := by omega
  have h := waitForStableLoop_const screen timeoutMs stableMs hscreen
    ((stableMs + 99) / 100) hS1 hS2 hT timeoutMs 0 (by omega) (by omega)
  have he : waitForStable screen timeoutMs stableMs =
      (true, 100 * ((stableMs + 99) / 100)) := h
  rw [he]
  refine ⟨rfl, by omega, by omega⟩

theorem waitForStable_unchanging_witness :
    (waitForStable (fun _ => []) 5000 500).1 = true ∧
    500 ≤ (waitForStable (fun _ => []) 5000 500).2 ∧
    (waitForStable (fun _ => []) 5000 500).2 < 500 + 100 :=
  waitForStable_unchanging (fun _ => []) 5000 500 (fun _ => rfl) (by omega)

/-- C1 counterexample: with an unchanging screen, stableMs = 150 and
timeoutMs = 160 satisfy the claim's bound stableMs < timeoutMs, yet the call
returns stable=false with elapsed 200: the poll that would observe the
150 ms of stability happens at the 200 ms boundary, which is already past
the 160 ms deadline, so the loop exits first. -/
theorem waitForStable_tight_timeout_cex :
    waitForStable (fun _ => []) 160 150 = (false, 200) := rfl

/-- Trimming a report that begins with the non-blank text "no sessions
found" keeps that text as a prefix: only trailing whitespace can go. -/
theorem jsTrim_no_sessions_prefix (rest : List Char) :
    ∃ tail2, jsTrim ("no sessions found".toList ++ rest) =
      "no sessions found".toList ++ tail2 := by
  unfold jsTrim
  rw [show ("no sessions found".toList ++ rest) =
    'n' :: ("o sessions found".toList ++ rest) from rfl]
  rw [List.dropWhile_cons]
  simp only [show jsIsWS 'n' = false from rfl, Bool.false_eq_true, if_false]
  rw [show ('n' :: ("o sessions found".toList ++ rest)) =
    ("no sessions found".toList ++ rest) from rfl]
  rw [List.reverse_append, List.dropWhile_append]
  by_cases he : (List.dropWhile jsIsWS rest.reverse).isEmpty
  · rw [if_pos he]
    refine ⟨[], ?_⟩
    rw [show List.dropWhile jsIsWS ("no sessions found".toList.reverse) =
      "no sessions found".toList.reverse from rfl]
    simp
  · rw [if_neg he]
    refine ⟨(List.dropWhile jsIsWS rest.reverse).reverse, ?_⟩
    rw [List.reverse_append, List.reverse_reverse]

/-- C5: listSessions parsing — a report starting with "no sessions found"
parses to the empty sequence (not an error); the line
"session_name=dev pid=123 clients=2" parses to name dev, pid 123,
clients 2; and a line holding only "session_name=x" parses with pid and
clients absent (none), not zero and not empty. -/
theorem listSessions_report_parsing (rest : List Char) :
    listSessionsParse ("no sessions found".toList ++ rest) = [] ∧
    listSessionsParse ("session_name=dev pid=123 clients=2".toList) =
      [⟨"dev".toList, some 123, some 2⟩] ∧
    listSessionsParse ("session_name=x".toList) =
      [⟨"x".toList, none, none⟩] := by
  refine ⟨?_, by decide, by decide⟩
  obtain ⟨t2, ht⟩ := jsTrim_no_sessions_prefix rest
  have hpref : ("no sessions found".toList).isPrefixOf
      (jsTrim ("no sessions found".toList ++ rest)) = true := by
    rw [ht]
    exact List.isPrefixOf_iff_prefix.mpr (List.prefix_append _ _)
  simp only [listSessionsParse, hpref, if_true]

/-- Folding a kill over the sessions of the starting listing empties the
registry: every starting element's name is one of the killed names. -/
theorem foldl_zmxKill_self (l : List ZmxSession) :
    ∀ acc : List ZmxSession, (∀ t ∈ acc, ∃ s ∈ l, t.name = s.name) →
      l.foldl (fun a s => zmxKill a s.name) acc = [] := by
  induction l with
  | nil =>
    intro acc h
    cases acc with
    | nil => rfl
    | cons a t =>
      rcases h a (by simp) with ⟨s, hs, _⟩
      simp at hs
  | cons s l ih =>
    intro acc h
    rw [List.foldl_cons]
    apply ih
    intro t ht
    have htmem := List.mem_filter.mp ht
    have htname : t.name ≠ s.name := of_decide_eq_true htmem.2
    rcases h t htmem.1 with ⟨u, hu, hname⟩
    rcases List.mem_cons.mp hu with rfl | hu2
    · exact absurd hname htname
    · exact ⟨u, hu2, hname⟩

/-- C6: killAllSessions kills every session listed by the registry at the
start of the call (the resulting registry is empty), returns the count
observed before killing (the starting listing's length), and clears both
ManagerState fields unconditionally. -/
theorem killAllSessions_spec (st : ManagerState) (registry : List ZmxSession) :
    TerminalManager.killAllSessions st registry =
      (⟨none, none⟩, [], registry.length) := by
  have h := foldl_zmxKill_self registry registry (fun t ht => ⟨t, ht, rfl⟩)
  simp only [TerminalManager.killAllSessions, zmxKillAllSessions, h]

/-- C8: killSession(name) clears ManagerState to NoSession exactly when
name equals the current session, and leaves the state untouched otherwise;
consequently createSession("dev") followed by killSession("dev") leaves
getStatus().sessionName = null and isActive = false. -/
theorem killSession_clears_iff_current (st : ManagerState)
    (registry : List ZmxSession) (sessionName : List Char) :
    (st.currentSession = some sessionName →
      (TerminalManager.killSession st registry sessionName).1 = ⟨none, none⟩) ∧
    (st.currentSession ≠ some sessionName →
      (TerminalManager.killSession st registry sessionName).1 = st) ∧
    (∀ wid resolved registry2 registry3,
      (TerminalManager.getStatus
        ((TerminalManager.killSession
          ((TerminalManager.createSession st ("dev".toList) wid).1)
          registry2 ("dev".toList)).1)
        resolved registry3).1.sessionName = none ∧
      (TerminalManager.getStatus
        ((TerminalManager.killSession
          ((TerminalManager.createSession st ("dev".toList) wid).1)
          registry2 ("dev".toList)).1)
        resolved registry3).1.isActive = false) := by
  refine ⟨?_, ?_, ?_⟩
  · intro h
    simp only [TerminalManager.killSession, if_pos h]
  · intro h
    simp only [TerminalManager.killSession, if_neg h]
  · intro wid resolved registry2 registry3
    exact ⟨rfl, rfl⟩

/-- C10: every SessionStatus getStatus returns satisfies the invariant that
isActive holds exactly when sessionName is non-null: both derive from the
one currentSession field, so no reachable ManagerState — whatever the
operations before — can make a caller observe them disagree. -/
theorem getStatus_isActive_iff_sessionName (st : ManagerState)
    (resolvedWindow : Option Nat) (registry : List ZmxSession) :
    (TerminalManager.getStatus st resolvedWindow registry).1.isActive =
      ((TerminalManager.getStatus st resolvedWindow registry).1.sessionName).isSome ∧
    ((TerminalManager.getStatus st resolvedWindow registry).1.isActive = true ↔
      (TerminalManager.getStatus st resolvedWindow registry).1.sessionName ≠ none) := by
  constructor
  · rfl
  · cases h : st.currentSession <;>
      simp [TerminalManager.getStatus, h]

/-- The sendKeys delivery loop when every key encodes: no error, and the
delivered trace corresponds one to one with the keys. -/
theorem sendKeysAux_all_ok (keys : List (List Char))
    (h : ∀ k ∈ keys, ∃ a, sendKeystroke k = .ok a) :
    (TerminalManager.sendKeysAux keys).2 = none ∧
    List.Forall₂ (fun k a => sendKeystroke k = .ok a) keys
      (TerminalManager.sendKeysAux keys).1 := by
  induction keys with
  | nil => exact ⟨rfl, List.Forall₂.nil⟩
  | cons k rest ih =>
    rcases h k (by simp) with ⟨a, ha⟩
    have ih2 := ih (fun k2 hk2 => h k2 (by simp [hk2]))
    simp only [TerminalManager.sendKeysAux, ha]
    exact ⟨ih2.1, List.Forall₂.cons ha ih2.2⟩

/-- The sendKeys delivery loop at the first failing key: the error is the
failing key's error and the delivered trace corresponds exactly to the keys
before it. -/
theorem sendKeysAux_first_error (bad : List Char) (post : List (List Char))
    (e : KeyError) (hbad : sendKeystroke bad = .error e) :
    ∀ pre : List (List Char), (∀ k ∈ pre, ∃ a, sendKeystroke k = .ok a) →
      (TerminalManager.sendKeysAux (pre ++ bad :: post)).2 = some e ∧
      List.Forall₂ (fun k a => sendKeystroke k = .ok a) pre
        (TerminalManager.sendKeysAux (pre ++ bad :: post)).1 := by
  intro pre
  induction pre with
  | nil =>
    intro _
    simp only [List.nil_append, TerminalManager.sendKeysAux, hbad]
    exact ⟨trivial, List.Forall₂.nil⟩
  | cons k rest ih =>
    intro hpre
    rcases hpre k (by simp) with ⟨a, ha⟩
    have ih2 := ih (fun k2 hk2 => hpre k2 (by simp [hk2]))
    simp only [List.cons_append, TerminalManager.sendKeysAux, ha]
    exact ⟨ih2.1, List.Forall₂.cons ha ih2.2⟩

/-- C7 (amended): sendKeys delivers each encoded key in order and aborts at
the first key that fails to encode; the keys delivered before the abort stay
delivered (no rollback) — but the caller is told the delivered count only
when every key encoded (the count then being the full keys.length); on an
abort the caller receives the unknown-key error, not a count. -/
theorem sendKeys_order_and_abort (keys : List (List Char)) :
    ((∀ k ∈ keys, ∃ a, sendKeystroke k = .ok a) →
      (TerminalManager.sendKeys keys).2 = .ok keys.length ∧
      List.Forall₂ (fun k a => sendKeystroke k = .ok a) keys
        (TerminalManager.sendKeys keys).1) ∧
    (∀ pre bad post e, keys = pre ++ bad :: post →
      (∀ k ∈ pre, ∃ a, sendKeystroke k = .ok a) →
      sendKeystroke bad = .error e →
      (TerminalManager.sendKeys keys).2 = .error e ∧
      List.Forall₂ (fun k a => sendKeystroke k = .ok a) pre
        (TerminalManager.sendKeys keys).1) := by
  constructor
  · intro h
    have h2 := sendKeysAux_all_ok keys h
    rcases haux : TerminalManager.sendKeysAux keys with ⟨tr, err⟩
    rw [haux] at h2
    rcases h2 with ⟨h21, h22⟩
    simp only at h21
    subst h21
    simp only [TerminalManager.sendKeys, haux]
    exact ⟨trivial, h22⟩
  · intro pre bad post e hkeys hpre hbad
    subst hkeys
    have h2 := sendKeysAux_first_error bad post e hbad pre hpre
    rcases haux : TerminalManager.sendKeysAux (pre ++ bad :: post) with ⟨tr, err⟩
    rw [haux] at h2
    rcases h2 with ⟨h21, h22⟩
    simp only at h21
    subst h21
    simp only [TerminalManager.sendKeys, haux]
    exact ⟨trivial, h22⟩

/-- C7 counterexample: sendKeys(["enter", "bogus", "tab"]) delivers one key
(enter, key code 36) and then aborts, and what reaches the caller is the
unknown-key error — not the count 1 of keys actually delivered, nor any
count at all, refuting the claim that partial delivery is reported via a
count. -/
theorem sendKeys_abort_without_count_cex :
    TerminalManager.sendKeys
        [['e','n','t','e','r'], ['b','o','g','u','s'], ['t','a','b']] =
      ([KeyAction.keyCode 36],
        .error (.unknownKey ['b','o','g','u','s'])) ∧
    ∀ n : Nat,
      (TerminalManager.sendKeys
        [['e','n','t','e','r'], ['b','o','g','u','s'], ['t','a','b']]).2 ≠
        .ok n := by
  refine ⟨rfl, ?_⟩
  intro n h
  rw [show (TerminalManager.sendKeys
      [['e','n','t','e','r'], ['b','o','g','u','s'], ['t','a','b']]).2 =
    .error (.unknownKey ['b','o','g','u','s']) from rfl] at h
  exact absurd h (by simp)
